import Mathlib

/-!
Verification development for the VideoCAM signaling relay.

The repository contains two near-duplicate FastAPI signaling servers:
`video_server.py` (the richer variant: per-user metadata, empty-room
deletion, `joined`/`user_joined` handshake with `should_initiate`) and
`main.py` (the minimal variant, the only one with a `leave` message
branch).  Both are embedded below, shallowly:

* Python dicts (insertion ordered, unique keys) are modelled as
  association lists with first-match lookup/replace/erase;
* a WebSocket channel is modelled by its identity plus an environment
  function `sendOk : String → Bool` saying whose `send_json` currently
  succeeds (a failing send raises in Python; `send_to_client` catches
  the exception);
* handlers return the new registry state together with the list of
  messages actually delivered, in delivery order, as
  `(recipient, message)` pairs;
* wall-clock `datetime.now()` timestamps, which are carried verbatim in
  `user_info` and outbound payloads and never read by any logic, are
  omitted from the model.
-/

namespace VideoCAM

/-! ### Association lists modelling Python dicts -/

/-- `d.get(k)` / `d[k]`: first entry with key `k`, if any. -/
def alistLookup {α : Type} : List (String × α) → String → Option α
  | [], _ => none
  | (k', v) :: rest, k => if k' = k then some v else alistLookup rest k

/-- `d[k] = v`: replace the value at the first entry with key `k`, or append
a fresh entry when the key is absent. -/
def alistInsert {α : Type} : List (String × α) → String → α → List (String × α)
  | [], k, v => [(k, v)]
  | (k', v') :: rest, k, v =>
      if k' = k then (k', v) :: rest else (k', v') :: alistInsert rest k v

/-- `del d[k]` / `d.pop(k, None)`: drop the first entry with key `k`. -/
def alistErase {α : Type} : List (String × α) → String → List (String × α)
  | [], _ => []
  | (k', v') :: rest, k => if k' = k then rest else (k', v') :: alistErase rest k

/-- Keys are pairwise distinct, as they are in every Python dict. -/
def NodupKeys {α : Type} (l : List (String × α)) : Prop :=
  (l.map Prod.fst).Nodup

instance {α : Type} (l : List (String × α)) : Decidable (NodupKeys l) := by
  unfold NodupKeys; infer_instance

/-- Python truthiness of `data.get(field)` for a string-valued field:
`None` and `""` are falsy. -/
def truthy : Option String → Bool
  | none => false
  | some s => !(s == "")

/-! ### video_server.py: data model -/

namespace VS

/-- One value of `manager.user_info[client_id]` (the `joined_at` wall-clock
string is omitted; no code reads it). -/
structure UserInfo where
  username : String
  room_id : String
deriving DecidableEq, Repr

/-- One element of the `other_users` list built by `join_room`. -/
structure OtherUser where
  client_id : String
  username : String
  room_id : String
deriving DecidableEq, Repr

/-- Outbound JSON payload shapes produced by video_server.py
(`timestamp` fields omitted). -/
inductive Msg where
  | joined (room_id client_id username : String) (participants : List OtherUser)
  | user_joined (client_id username : String) (should_initiate : Bool)
  | user_left (client_id username : String)
  | offer (sender payload : String)
  | answer (sender payload : String)
  | ice_candidate (sender payload : String)
  | chat (sender message : String)
  | pong
deriving DecidableEq, Repr

/-- A delivered message: recipient paired with payload. -/
abbrev Event := String × Msg

/-- The `ConnectionManager` state: `active_connections` keeps only the key
set of the Python dict (the WebSocket values are opaque channel handles,
represented by the `sendOk` environment). -/
structure Manager where
  active_connections : List String
  rooms : List (String × List String)
  user_info : List (String × UserInfo)
deriving DecidableEq, Repr

/-- The freshly constructed manager: all three dicts empty. -/
def Manager.empty : Manager := ⟨[], [], []⟩

/-- `ConnectionManager.connect`: accept and record the channel under
`client_id` (dict assignment: the key set gains `client_id` if absent). -/
def connect (st : Manager) (client_id : String) : Manager :=
  { st with active_connections :=
      if client_id ∈ st.active_connections then st.active_connections
      else st.active_connections ++ [client_id] }

/-- The room table after the first stage of `ConnectionManager.disconnect`:
when the client's stored `room_id` is truthy, names a present room, and
that room lists the client, remove the client's (first) occurrence, and
delete the room entirely if that left it empty. -/
def disconnectRooms (st : Manager) (client_id : String) :
    List (String × List String) :=
  match (alistLookup st.user_info client_id).map (·.room_id) with
  | some r =>
      if r ≠ "" then
        match alistLookup st.rooms r with
        | some members =>
            if client_id ∈ members then
              if members.erase client_id = [] then alistErase st.rooms r
              else alistInsert st.rooms r (members.erase client_id)
            else st.rooms
        | none => st.rooms
      else st.rooms
  | none => st.rooms

/-- `ConnectionManager.disconnect`: remove the client from its room (the
first stage touches only the room table, see `disconnectRooms`), then drop
the connection entry and the profile entry. -/
def disconnect (st : Manager) (client_id : String) : Manager :=
  { active_connections := st.active_connections.erase client_id,
    rooms := disconnectRooms st client_id,
    user_info := alistErase st.user_info client_id }

/-- `ConnectionManager.join_room`: create the room if absent, append the
client to its member list, store the profile, and return the other members
(each rendered with its stored username, `"Unknown"` if no profile). -/
def join_room (st : Manager) (client_id room_id username : String) :
    Manager × List OtherUser :=
  let rooms1 :=
    if (alistLookup st.rooms room_id).isSome then st.rooms
    else st.rooms ++ [(room_id, [])]
  let members := ((alistLookup rooms1 room_id).getD []) ++ [client_id]
  let rooms2 := alistInsert rooms1 room_id members
  let ui := alistInsert st.user_info client_id ⟨username, room_id⟩
  let st' := { st with rooms := rooms2, user_info := ui }
  let other_users := (members.filter (· ≠ client_id)).map fun uid =>
    { client_id := uid
      username := ((alistLookup ui uid).map (·.username)).getD "Unknown"
      room_id := room_id }
  (st', other_users)

/-- `ConnectionManager.send_to_client`: deliver to the target if it is a
live connection and its channel send succeeds; a raised send exception is
caught and turned into `false`.  The registry state is never modified. -/
def send_to_client (sendOk : String → Bool) (st : Manager) (m : Msg)
    (client_id : String) : Manager × Bool × List Event :=
  if client_id ∈ st.active_connections then
    if sendOk client_id then (st, true, [(client_id, m)])
    else (st, false, [])
  else (st, false, [])

/-- `ConnectionManager.broadcast_to_room`: send to every member of the room
except `exclude_client` (`none` excludes nobody), via `send_to_client`, so a
per-recipient failure is swallowed and iteration continues. -/
def broadcast_to_room (sendOk : String → Bool) (st : Manager) (m : Msg)
    (room_id : String) (exclude_client : Option String) : List Event :=
  match alistLookup st.rooms room_id with
  | none => []
  | some members =>
      members.flatMap fun client_id =>
        if some client_id ≠ exclude_client then
          (send_to_client sendOk st m client_id).2.2
        else []

/-! ### video_server.py: message router and handlers -/

/-- An inbound message after `receive_json`, keyed by its `type` field.
String-valued fields are carried as `Option String` (`none` = key absent);
`other` stands for any unrecognized `type`, including `"leave"`, which
video_server.py does not handle. -/
inductive InMsg where
  | join (room username : Option String)
  | offer (target payload : Option String)
  | answer (target payload : Option String)
  | ice_candidate (target payload : Option String)
  | chat (room message : Option String)
  | ping
  | other
deriving DecidableEq, Repr

/-- `handle_join`: read `room` (default `"default"`) and `username` (default
`"Anonymous"`), join the room, confirm to the newcomer with the
other-members snapshot, then notify each existing member
(`should_initiate = true`) and mirror each one back to the newcomer
(`should_initiate = false`).  The `existing_users` copy taken before the
join is only logged and is not modelled. -/
def handle_join (sendOk : String → Bool) (st : Manager) (client_id : String)
    (room username : Option String) : Manager × List Event :=
  let room_id := room.getD "default"
  let uname := username.getD "Anonymous"
  let res := join_room st client_id room_id uname
  let st' := res.1
  let other_users := res.2
  let ev1 := (send_to_client sendOk st'
    (Msg.joined room_id client_id uname other_users) client_id).2.2
  let ev2 := other_users.flatMap fun eu =>
    (send_to_client sendOk st'
      (Msg.user_joined client_id uname true) eu.client_id).2.2 ++
    (send_to_client sendOk st'
      (Msg.user_joined eu.client_id eu.username false) client_id).2.2
  (st', ev1 ++ ev2)

/-- `handle_offer`: relay the offer to `target` when both `target` and
`offer` are truthy; otherwise do nothing. -/
def handle_offer (sendOk : String → Bool) (st : Manager) (client_id : String)
    (target payload : Option String) : List Event :=
  if truthy target ∧ truthy payload then
    (send_to_client sendOk st (Msg.offer client_id (payload.getD ""))
      (target.getD "")).2.2
  else []

/-- `handle_answer`: relay the answer to `target` when both fields are
truthy. -/
def handle_answer (sendOk : String → Bool) (st : Manager) (client_id : String)
    (target payload : Option String) : List Event :=
  if truthy target ∧ truthy payload then
    (send_to_client sendOk st (Msg.answer client_id (payload.getD ""))
      (target.getD "")).2.2
  else []

/-- `handle_ice_candidate`: relay the candidate to `target` when both fields
are truthy. -/
def handle_ice_candidate (sendOk : String → Bool) (st : Manager)
    (client_id : String) (target payload : Option String) : List Event :=
  if truthy target ∧ truthy payload then
    (send_to_client sendOk st (Msg.ice_candidate client_id (payload.getD ""))
      (target.getD "")).2.2
  else []

/-- `handle_chat`: when `room` and `message` are truthy, send the chat
(stamped with the sender's stored username, `"Unknown"` if none) to every
room member except the sender. -/
def handle_chat (sendOk : String → Bool) (st : Manager) (client_id : String)
    (room message : Option String) : List Event :=
  if truthy room ∧ truthy message then
    let username :=
      ((alistLookup st.user_info client_id).map (·.username)).getD "Unknown"
    match alistLookup st.rooms (room.getD "") with
    | none => []
    | some members =>
        members.flatMap fun user_id =>
          if user_id ≠ client_id then
            (send_to_client sendOk st
              (Msg.chat username (message.getD "")) user_id).2.2
          else []
  else []

/-- `handle_ping`: reply `pong` to the sender only. -/
def handle_ping (sendOk : String → Bool) (st : Manager) (client_id : String) :
    List Event :=
  (send_to_client sendOk st Msg.pong client_id).2.2

/-- `handle_websocket_message`: dispatch on the `type` field.  Only `join`
mutates the registry; an unrecognized type (including `"leave"`) falls
through every branch and has no effect. -/
def handle_websocket_message (sendOk : String → Bool) (st : Manager)
    (client_id : String) (m : InMsg) : Manager × List Event :=
  match m with
  | InMsg.join room username => handle_join sendOk st client_id room username
  | InMsg.offer target payload =>
      (st, handle_offer sendOk st client_id target payload)
  | InMsg.answer target payload =>
      (st, handle_answer sendOk st client_id target payload)
  | InMsg.ice_candidate target payload =>
      (st, handle_ice_candidate sendOk st client_id target payload)
  | InMsg.chat room message =>
      (st, handle_chat sendOk st client_id room message)
  | InMsg.ping => (st, handle_ping sendOk st client_id)
  | InMsg.other => (st, [])

/-- `handle_client_disconnect`: snapshot the profile, run
`ConnectionManager.disconnect`, then (when the prior room id is truthy and
the room survived) send `user_left` to each remaining live member. -/
def handle_client_disconnect (sendOk : String → Bool) (st : Manager)
    (client_id : String) : Manager × List Event :=
  let info := alistLookup st.user_info client_id
  let room_id := info.map (·.room_id)
  let username := (info.map (·.username)).getD "Unknown"
  let st' := disconnect st client_id
  let ev :=
    match room_id with
    | some r =>
        if r ≠ "" then
          match alistLookup st'.rooms r with
          | some members =>
              members.flatMap fun user_id =>
                if user_id ≠ client_id ∧ user_id ∈ st'.active_connections then
                  (send_to_client sendOk st'
                    (Msg.user_left client_id username) user_id).2.2
                else []
          | none => []
        else []
    | none => []
  (st', ev)

/-! ### video_server.py: reachable registry states -/

/-- One externally triggered registry transition: a websocket is accepted,
a live connection's message is dispatched, or a connection's endpoint loop
observes channel closure.  Delivered events do not feed back into the
registry, so steps record states only (`sendOk` is irrelevant to the state:
`send_to_client` never mutates). -/
inductive Step : Manager → Manager → Prop where
  | connect (st : Manager) (c : String) : Step st (connect st c)
  | message (st : Manager) (c : String) (m : InMsg)
      (hc : c ∈ st.active_connections) :
      Step st (handle_websocket_message (fun _ => true) st c m).1
  | disconnect (st : Manager) (c : String) :
      Step st (handle_client_disconnect (fun _ => true) st c).1

/-- Registry states reachable from the empty manager by any sequence of
connect, message-dispatch and disconnect transitions. -/
inductive Reachable : Manager → Prop where
  | empty : Reachable Manager.empty
  | step {st st' : Manager} : Reachable st → Step st st' → Reachable st'

/-- A `Step` whose `join` dispatches are well-behaved: the joining client
has no stored profile (so is in no room) and the effective room id is
nonempty.  All other transitions are unrestricted. -/
inductive SafeStep : Manager → Manager → Prop where
  | connect (st : Manager) (c : String) : SafeStep st (connect st c)
  | message (st : Manager) (c : String) (m : InMsg)
      (hc : c ∈ st.active_connections)
      (hj : ∀ room username, m = InMsg.join room username →
        alistLookup st.user_info c = none ∧ room.getD "default" ≠ "") :
      SafeStep st (handle_websocket_message (fun _ => true) st c m).1
  | disconnect (st : Manager) (c : String) :
      SafeStep st (handle_client_disconnect (fun _ => true) st c).1

/-- Registry states reachable from the empty manager using only safe
joins. -/
inductive SafeReachable : Manager → Prop where
  | empty : SafeReachable Manager.empty
  | step {st st' : Manager} : SafeReachable st → SafeStep st st' → SafeReachable st'

/-- A recognized inbound message that is missing (or carries a falsy value
for) one of its required fields, per the spec's router table: `target` and
the payload for `offer`/`answer`/`ice_candidate`, `room` and `message` for
`chat`.  `join`'s required `room` field is deliberately not included: see
the C7 analysis. -/
def missingRequiredField : InMsg → Bool
  | InMsg.offer target payload => !truthy target || !truthy payload
  | InMsg.answer target payload => !truthy target || !truthy payload
  | InMsg.ice_candidate target payload => !truthy target || !truthy payload
  | InMsg.chat room message => !truthy room || !truthy message
  | _ => false

/-- The member list of room `r` (empty when the room id is absent). -/
def membersOf (st : Manager) (r : String) : List String :=
  (alistLookup st.rooms r).getD []

/-- The stored room field of client `c`'s profile, if any. -/
def roomOf (st : Manager) (c : String) : Option String :=
  (alistLookup st.user_info c).map (·.room_id)

/-- The spec's room-consistency relation between the registry's two
membership views: a connection id is in room `r`'s member list iff its
stored profile's room field equals `r`. -/
def RoomConsistent (st : Manager) : Prop :=
  ∀ c r, c ∈ membersOf st r ↔ roomOf st c = some r

/-- Structural facts of every dict-backed registry: unique keys in both
dict models, duplicate-free member lists, and truthy stored room ids. -/
def WF (st : Manager) : Prop :=
  NodupKeys st.rooms ∧ NodupKeys st.user_info ∧
    (∀ r, (membersOf st r).Nodup) ∧
    (∀ c r, roomOf st c = some r → r ≠ "")

end VS

/-! ### main.py: the minimal variant -/

namespace MainV

/-- Outbound payloads of the main.py branches modelled here. -/
inductive Msg where
  | user_left (client_id : String)
deriving DecidableEq, Repr

abbrev Event := String × Msg

/-- main.py's `ConnectionManager` holds only the connection dict and the
room table — there is no per-user metadata. -/
structure Manager where
  active_connections : List String
  rooms : List (String × List String)
deriving DecidableEq, Repr

def Manager.empty : Manager := ⟨[], []⟩

/-- main.py `ConnectionManager.disconnect`: drop the connection entry and
remove the client from every room that lists it.  Emptied rooms are left in
the table. -/
def disconnect (st : Manager) (client_id : String) : Manager :=
  { st with
    active_connections := st.active_connections.erase client_id,
    rooms := st.rooms.map fun e =>
      if client_id ∈ e.2 then (e.1, e.2.erase client_id) else e }

/-- The send loop of main.py's `broadcast_to_room`.  Unlike
video_server.py, the `send_json` here is NOT wrapped in a try/except: a
raising send aborts the remaining recipients and the exception propagates
to the caller.  Returns the `(recipient, message)` events delivered before
any raise, paired with `true` iff a send raised. -/
def broadcast_sends (sendOk : String → Bool) (st : Manager) (m : Msg)
    (exclude_client : Option String) : List String → List Event × Bool
  | [] => ([], false)
  | client_id :: rest =>
      if some client_id ≠ exclude_client ∧
          client_id ∈ st.active_connections then
        if sendOk client_id then
          let res := broadcast_sends sendOk st m exclude_client rest
          ((client_id, m) :: res.1, res.2)
        else ([], true)
      else broadcast_sends sendOk st m exclude_client rest

/-- main.py `ConnectionManager.broadcast_to_room`: send to every live room
member except `exclude_client`, in member-list order, with bare unguarded
`send_json` calls (see `broadcast_sends` for the error path); missing room
is a no-op. -/
def broadcast_to_room (sendOk : String → Bool) (st : Manager) (m : Msg)
    (room_id : String) (exclude_client : Option String) :
    List Event × Bool :=
  match alistLookup st.rooms room_id with
  | none => ([], false)
  | some members => broadcast_sends sendOk st m exclude_client members

/-- main.py's `leave` branch: when the message's `room` field names a room
that lists the sender, remove the sender from that room's member list and
broadcast `user_left{client_id}` to it (no exclusion).  The emptied room is
not deleted.  Otherwise the message has no effect.  The result is
`(state, delivered events, raised)`: when a broadcast send raises, the
exception escapes `websocket_endpoint`'s try (which catches only
`WebSocketDisconnect`), killing the sender's handler loop without running
`disconnect` — the member-list removal already performed persists. -/
def handle_leave (sendOk : String → Bool) (st : Manager) (client_id : String)
    (room : Option String) : Manager × List Event × Bool :=
  match room with
  | none => (st, [], false)
  | some room_id =>
      match alistLookup st.rooms room_id with
      | none => (st, [], false)
      | some members =>
          if client_id ∈ members then
            let st' :=
              { st with rooms := alistInsert st.rooms room_id (members.erase client_id) }
            let b := broadcast_to_room sendOk st' (Msg.user_left client_id) room_id none
            (st', b.1, b.2)
          else (st, [], false)

/-- The member list of room `r` in the minimal variant. -/
def membersOf (st : Manager) (r : String) : List String :=
  (alistLookup st.rooms r).getD []

end MainV

/-! ### Lemmas about the dict model -/

theorem alistLookup_insert_self {α : Type} (l : List (String × α)) (k : String)
    (v : α) : alistLookup (alistInsert l k v) k = some v := by
  induction l with
  | nil => simp [alistInsert, alistLookup]
  | cons e rest ih =>
      by_cases h : e.1 = k
      · simp [alistInsert, alistLookup, h]
      · simp [alistInsert, alistLookup, h, ih]

theorem alistLookup_insert_ne {α : Type} (l : List (String × α)) {k k' : String}
    (v : α) (h : k' ≠ k) :
    alistLookup (alistInsert l k v) k' = alistLookup l k' := by
  induction l with
  | nil => simp [alistInsert, alistLookup, Ne.symm h]
  | cons e rest ih =>
      by_cases he : e.1 = k
      · subst he
        simp [alistInsert, alistLookup, Ne.symm h]
      · simp only [alistInsert, if_neg he, alistLookup]
        by_cases he' : e.1 = k'
        · simp [he']
        · simp [he', ih]

theorem alistLookup_erase_ne {α : Type} (l : List (String × α)) {k k' : String}
    (h : k' ≠ k) : alistLookup (alistErase l k) k' = alistLookup l k' := by
  induction l with
  | nil => simp [alistErase]
  | cons e rest ih =>
      by_cases he : e.1 = k
      · subst he
        simp [alistErase, alistLookup, Ne.symm h]
      · simp only [alistErase, if_neg he, alistLookup]
        by_cases he' : e.1 = k'
        · simp [he']
        · simp [he', ih]

theorem alistLookup_eq_none_iff {α : Type} (l : List (String × α)) (k : String) :
    alistLookup l k = none ↔ k ∉ l.map Prod.fst := by
  induction l with
  | nil => simp [alistLookup]
  | cons e rest ih =>
      by_cases he : e.1 = k
      · simp [alistLookup, he]
      · simp only [alistLookup, if_neg he, List.map_cons, List.mem_cons, ih]
        constructor
        · intro h1 h2
          rcases h2 with h2 | h2
          · exact he h2.symm
          · exact h1 h2
        · intro h1 h2
          exact h1 (Or.inr h2)

theorem alistLookup_erase_self {α : Type} (l : List (String × α)) (k : String)
    (h : NodupKeys l) : alistLookup (alistErase l k) k = none := by
  induction l with
  | nil => simp [alistErase, alistLookup]
  | cons e rest ih =>
      unfold NodupKeys at h
      simp only [List.map_cons, List.nodup_cons] at h
      by_cases he : e.1 = k
      · subst he
        simp only [alistErase, if_pos rfl]
        exact (alistLookup_eq_none_iff rest e.1).mpr h.1
      · simp [alistErase, alistLookup, he, ih h.2]

theorem alistLookup_append {α : Type} (l l₂ : List (String × α)) (k : String) :
    alistLookup (l ++ l₂) k =
      ((alistLookup l k).rec (alistLookup l₂ k) (fun v => some v) : Option α) := by
  induction l with
  | nil => simp [alistLookup]
  | cons e rest ih =>
      by_cases he : e.1 = k
      · simp [alistLookup, he]
      · simp [alistLookup, he, ih]

theorem alistLookup_append_self {α : Type} (l : List (String × α)) {k : String}
    (v : α) (h : alistLookup l k = none) :
    alistLookup (l ++ [(k, v)]) k = some v := by
  rw [alistLookup_append, h]
  simp [alistLookup]

theorem alistLookup_append_ne {α : Type} (l : List (String × α)) {k k' : String}
    (v : α) (h : k' ≠ k) :
    alistLookup (l ++ [(k, v)]) k' = alistLookup l k' := by
  rw [alistLookup_append]
  cases hl : alistLookup l k' with
  | none => simp [alistLookup, Ne.symm h]
  | some w => simp

theorem alistInsert_keys {α : Type} (l : List (String × α)) (k : String)
    (v : α) :
    (alistInsert l k v).map Prod.fst = l.map Prod.fst ∨
    (alistInsert l k v).map Prod.fst = l.map Prod.fst ++ [k] := by
  induction l with
  | nil => right; simp [alistInsert]
  | cons e rest ih =>
      by_cases he : e.1 = k
      · left; simp [alistInsert, he]
      · rcases ih with h1 | h1 <;> simp [alistInsert, he, h1]

theorem alistErase_keys_subset {α : Type} (l : List (String × α))
    (k a : String) (h : a ∈ (alistErase l k).map Prod.fst) :
    a ∈ l.map Prod.fst := by
  induction l with
  | nil => simp [alistErase] at h
  | cons e rest ih =>
      by_cases he : e.1 = k
      · simp only [alistErase, if_pos he] at h
        simp [h]
      · simp only [alistErase, if_neg he, List.map_cons, List.mem_cons] at h
        rcases h with h1 | h1
        · simp [h1]
        · simp [ih h1]

theorem NodupKeys_insert {α : Type} (l : List (String × α)) (k : String) (v : α)
    (h : NodupKeys l) : NodupKeys (alistInsert l k v) := by
  induction l with
  | nil => simp [alistInsert, NodupKeys]
  | cons e rest ih =>
      unfold NodupKeys at h ⊢
      simp only [List.map_cons, List.nodup_cons] at h
      by_cases he : e.1 = k
      · simpa [alistInsert, he, NodupKeys] using h
      · have hrest := ih h.2
        unfold NodupKeys at hrest
        simp only [alistInsert, if_neg he, List.map_cons, List.nodup_cons]
        refine ⟨?_, hrest⟩
        intro hmem
        rcases alistInsert_keys rest k v with h1 | h1
        · rw [h1] at hmem; exact h.1 hmem
        · rw [h1] at hmem
          rcases List.mem_append.mp hmem with h2 | h2
          · exact h.1 h2
          · simp only [List.mem_singleton] at h2
            exact he h2

theorem NodupKeys_erase {α : Type} (l : List (String × α)) (k : String)
    (h : NodupKeys l) : NodupKeys (alistErase l k) := by
  induction l with
  | nil => simp [alistErase, NodupKeys]
  | cons e rest ih =>
      unfold NodupKeys at h ⊢
      simp only [List.map_cons, List.nodup_cons] at h
      by_cases he : e.1 = k
      · simpa [alistErase, he, NodupKeys] using h.2
      · simp only [alistErase, if_neg he, List.map_cons, List.nodup_cons]
        exact ⟨fun hmem => h.1 (alistErase_keys_subset rest k e.1 hmem), ih h.2⟩

theorem NodupKeys_append_single {α : Type} (l : List (String × α)) (k : String)
    (v : α) (h : NodupKeys l) (hk : alistLookup l k = none) :
    NodupKeys (l ++ [(k, v)]) := by
  unfold NodupKeys at h ⊢
  rw [List.map_append]
  apply List.Nodup.append h (by simp)
  intro a ha hb
  simp only [List.map_cons, List.map_nil, List.mem_singleton] at hb
  rw [hb] at ha
  exact (alistLookup_eq_none_iff l k).mp hk ha

theorem alistErase_of_lookup_none {α : Type} (l : List (String × α))
    (k : String) (h : alistLookup l k = none) : alistErase l k = l := by
  induction l with
  | nil => rfl
  | cons e rest ih =>
      by_cases he : e.1 = k
      · simp [alistLookup, he] at h
      · simp only [alistLookup, if_neg he] at h
        simp [alistErase, he, ih h]

/-! ### Shapes of delivered-event lists -/

/-- A conditional-singleton `flatMap` is a `filter`-then-`map`. -/
theorem flatMap_if_singleton {μ : Type} (ms : List String) (p : String → Bool)
    (m : μ) :
    (ms.flatMap fun x => if p x then [(x, m)] else []) =
      (ms.filter p).map fun x => (x, m) := by
  induction ms with
  | nil => rfl
  | cons x rest ih =>
      by_cases hx : p x <;> simp [hx, ih]

theorem count_pair_map {μ : Type} [DecidableEq μ] (ms : List String)
    (m : μ) (c : String) :
    ((ms.map fun x => (x, m)).count (c, m)) = ms.count c := by
  induction ms with
  | nil => rfl
  | cons x rest ih =>
      simp only [List.map_cons, List.count_cons, ih]
      congr 1
      by_cases hx : x = c <;> simp [beq_iff_eq, hx]

theorem VS.send_to_client_events (sendOk : String → Bool) (st : VS.Manager)
    (m : VS.Msg) (c : String) :
    (VS.send_to_client sendOk st m c).2.2 =
      if c ∈ st.active_connections ∧ sendOk c then [(c, m)] else [] := by
  unfold VS.send_to_client
  by_cases h1 : c ∈ st.active_connections <;> by_cases h2 : sendOk c <;>
    simp [h1, h2]

/-- Delivered events of a video_server broadcast: the non-excluded, live,
send-succeeding members in member-list order, each paired with the
message. -/
theorem VS.broadcast_to_room_eq (sendOk : String → Bool) (st : VS.Manager)
    (m : VS.Msg) (room_id : String) (exclude_client : Option String) :
    VS.broadcast_to_room sendOk st m room_id exclude_client =
      ((VS.membersOf st room_id).filter fun x =>
        some x ≠ exclude_client ∧ x ∈ st.active_connections ∧ sendOk x).map
        fun x => (x, m) := by
  unfold VS.broadcast_to_room VS.membersOf
  cases hlook : alistLookup st.rooms room_id with
  | none => simp
  | some members =>
      simp only [Option.getD_some]
      rw [← flatMap_if_singleton members
        (fun x => decide (some x ≠ exclude_client ∧
          x ∈ st.active_connections ∧ sendOk x)) m]
      apply List.flatMap_congr
      intro x _
      rw [VS.send_to_client_events]
      by_cases h1 : some x ≠ exclude_client <;>
        by_cases h2 : x ∈ st.active_connections ∧ sendOk x <;>
        simp [h1, h2]

/-! ### Disconnect characterization -/

theorem VS.handle_client_disconnect_state (sendOk : String → Bool)
    (st : VS.Manager) (c : String) :
    (VS.handle_client_disconnect sendOk st c).1 = VS.disconnect st c := rfl

theorem VS.disconnect_user_info (st : VS.Manager) (c : String) :
    (VS.disconnect st c).user_info = alistErase st.user_info c := rfl

theorem VS.disconnect_active (st : VS.Manager) (c : String) :
    (VS.disconnect st c).active_connections =
      st.active_connections.erase c := rfl

theorem VS.disconnectRooms_no_profile (st : VS.Manager) (c : String)
    (h : alistLookup st.user_info c = none) :
    VS.disconnectRooms st c = st.rooms := by
  unfold VS.disconnectRooms
  rw [h]
  rfl

theorem VS.handle_client_disconnect_no_profile (sendOk : String → Bool)
    (st : VS.Manager) (c : String) (h : alistLookup st.user_info c = none) :
    VS.handle_client_disconnect sendOk st c = (VS.disconnect st c, []) := by
  simp [VS.handle_client_disconnect, h]

/-! ### Join characterization -/

theorem VS.handle_join_state (sendOk : String → Bool) (st : VS.Manager)
    (c : String) (room username : Option String) :
    (VS.handle_join sendOk st c room username).1 =
      (VS.join_room st c (room.getD "default")
        (username.getD "Anonymous")).1 := rfl

theorem VS.join_room_state (st : VS.Manager) (c r u : String) :
    (VS.join_room st c r u).1 =
      { st with
        rooms := alistInsert
          (if (alistLookup st.rooms r).isSome then st.rooms
           else st.rooms ++ [(r, [])]) r (VS.membersOf st r ++ [c]),
        user_info := alistInsert st.user_info c ⟨u, r⟩ } := by
  cases hlook : alistLookup st.rooms r with
  | none =>
      simp [VS.join_room, VS.membersOf, hlook,
        alistLookup_append_self st.rooms ([] : List String) hlook]
  | some l => simp [VS.join_room, VS.membersOf, hlook]

theorem VS.join_room_others (st : VS.Manager) (c r u : String) :
    (VS.join_room st c r u).2 =
      ((VS.membersOf st r ++ [c]).filter (· ≠ c)).map fun uid =>
        ⟨uid, ((alistLookup (alistInsert st.user_info c ⟨u, r⟩) uid).map
          (·.username)).getD "Unknown", r⟩ := by
  cases hlook : alistLookup st.rooms r with
  | none =>
      simp [VS.join_room, VS.membersOf, hlook,
        alistLookup_append_self st.rooms ([] : List String) hlook]
  | some l => simp [VS.join_room, VS.membersOf, hlook]

theorem VS.handle_join_events (sendOk : String → Bool) (st : VS.Manager)
    (c : String) (room username : Option String) :
    (VS.handle_join sendOk st c room username).2 =
      (VS.send_to_client sendOk
        (VS.join_room st c (room.getD "default") (username.getD "Anonymous")).1
        (VS.Msg.joined (room.getD "default") c (username.getD "Anonymous")
          (VS.join_room st c (room.getD "default")
            (username.getD "Anonymous")).2) c).2.2 ++
      (VS.join_room st c (room.getD "default")
          (username.getD "Anonymous")).2.flatMap (fun eu =>
        (VS.send_to_client sendOk
          (VS.join_room st c (room.getD "default")
            (username.getD "Anonymous")).1
          (VS.Msg.user_joined c (username.getD "Anonymous") true)
          eu.client_id).2.2 ++
        (VS.send_to_client sendOk
          (VS.join_room st c (room.getD "default")
            (username.getD "Anonymous")).1
          (VS.Msg.user_joined eu.client_id eu.username false) c).2.2) := rfl

/-- Events delivered to one recipient out of a conditional-singleton map:
one copy per occurrence in the underlying member list. -/
theorem filter_fst_map_pair {μ : Type} [DecidableEq μ] (ms : List String)
    (m : μ) (B : String) :
    ((ms.map fun x => (x, m)).filter fun e => e.1 = B) =
      List.replicate (ms.count B) (B, m) := by
  induction ms with
  | nil => rfl
  | cons x rest ih =>
      by_cases hx : x = B
      · subst hx
        simp [ih, List.count_cons_self, List.replicate_succ]
      · simp [ih, hx, List.count_cons, beq_iff_eq]

/-- The notification stage of `handle_client_disconnect` when the client
had a profile with a truthy room id and the room survives the removal. -/
theorem VS.handle_client_disconnect_events_in_room (sendOk : String → Bool)
    (st : VS.Manager) (A uA r : String)
    (hui : alistLookup st.user_info A = some ⟨uA, r⟩) (hr : r ≠ "")
    (members : List String)
    (hm : alistLookup (VS.disconnect st A).rooms r = some members) :
    (VS.handle_client_disconnect sendOk st A).2 =
      members.flatMap fun uid =>
        if uid ≠ A ∧ uid ∈ (VS.disconnect st A).active_connections then
          (VS.send_to_client sendOk (VS.disconnect st A)
            (VS.Msg.user_left A uA) uid).2.2
        else [] := by
  simp [VS.handle_client_disconnect, hui, hr, hm]

/-- When every send attempted by a main.py broadcast loop succeeds,
nothing raises and the delivered events are exactly the non-excluded live
members in member-list order. -/
theorem MainV.broadcast_sends_all_ok (sendOk : String → Bool)
    (st : MainV.Manager) (m : MainV.Msg) (exclude_client : Option String)
    (ms : List String)
    (hok : ∀ x ∈ ms, some x ≠ exclude_client →
      x ∈ st.active_connections → sendOk x = true) :
    MainV.broadcast_sends sendOk st m exclude_client ms =
      ((ms.filter fun x =>
        some x ≠ exclude_client ∧ x ∈ st.active_connections).map
        fun x => (x, m), false) := by
  induction ms with
  | nil => rfl
  | cons x rest ih =>
      have hrest : ∀ y ∈ rest, some y ≠ exclude_client →
          y ∈ st.active_connections → sendOk y = true :=
        fun y hy => hok y (List.mem_cons_of_mem x hy)
      by_cases h1 : some x ≠ exclude_client ∧ x ∈ st.active_connections
      · have hx : sendOk x = true := hok x (List.mem_cons_self x rest) h1.1 h1.2
        simp [MainV.broadcast_sends, h1, hx, ih hrest]
      · simp [MainV.broadcast_sends, h1, ih hrest]

/-- The room-table form of `MainV.broadcast_sends_all_ok`. -/
theorem MainV.broadcast_to_room_all_ok (sendOk : String → Bool)
    (st : MainV.Manager) (m : MainV.Msg) (room_id : String)
    (exclude_client : Option String) (members : List String)
    (hm : alistLookup st.rooms room_id = some members)
    (hok : ∀ x ∈ members, some x ≠ exclude_client →
      x ∈ st.active_connections → sendOk x = true) :
    MainV.broadcast_to_room sendOk st m room_id exclude_client =
      ((members.filter fun x =>
        some x ≠ exclude_client ∧ x ∈ st.active_connections).map
        fun x => (x, m), false) := by
  unfold MainV.broadcast_to_room
  rw [hm]
  exact MainV.broadcast_sends_all_ok sendOk st m exclude_client members hok

/-- main.py does not isolate per-recipient failures: a raising send in the
middle of a broadcast truncates delivery to the prefix (here only `"a"`)
and the exception escapes — the ground for C8's all-sends-succeed
hypothesis. -/
theorem main_broadcast_failure_truncates :
    MainV.broadcast_to_room (fun x => !(x == "b"))
        ⟨["a", "b", "c"], [("r", ["a", "b", "c"])]⟩
        (MainV.Msg.user_left "z") "r" none =
      ([("a", MainV.Msg.user_left "z")], true) := by
  decide

/-- In the richer variant (video_server.py), disconnecting the last member
does delete the room: supporting fact for the C3 analysis. -/
theorem VS.disconnect_deletes_empty_room (st : VS.Manager) (A uA r : String)
    (l : List String) (hui : alistLookup st.user_info A = some ⟨uA, r⟩)
    (hr : r ≠ "") (hroom : alistLookup st.rooms r = some l) (hA : A ∈ l)
    (hempty : l.erase A = []) (hnk : NodupKeys st.rooms) :
    alistLookup (VS.disconnect st A).rooms r = none := by
  show alistLookup (VS.disconnectRooms st A) r = none
  unfold VS.disconnectRooms
  rw [hui]
  simp [hr, hroom, hA, hempty, alistLookup_erase_self st.rooms r hnk]

/-! ### Room-consistency invariant: preservation lemmas -/

theorem VS.exists_lookup_of_mem_membersOf (st : VS.Manager) (r c : String)
    (h : c ∈ VS.membersOf st r) :
    ∃ l, alistLookup st.rooms r = some l ∧ c ∈ l := by
  unfold VS.membersOf at h
  cases hl : alistLookup st.rooms r with
  | none => rw [hl] at h; simp at h
  | some l => rw [hl] at h; exact ⟨l, rfl, h⟩

theorem VS.join_room_user_info (st : VS.Manager) (c r u : String) :
    (VS.join_room st c r u).1.user_info =
      alistInsert st.user_info c ⟨u, r⟩ := rfl

theorem VS.join_room_rooms_lookup_self (st : VS.Manager) (c r u : String) :
    alistLookup (VS.join_room st c r u).1.rooms r =
      some (VS.membersOf st r ++ [c]) := by
  cases hl : alistLookup st.rooms r with
  | none =>
      simp [VS.join_room, hl, VS.membersOf,
        alistLookup_append_self st.rooms ([] : List String) hl,
        alistLookup_insert_self]
  | some l =>
      simp [VS.join_room, hl, VS.membersOf, alistLookup_insert_self]

theorem VS.join_room_rooms_lookup_ne (st : VS.Manager) (c r u r' : String)
    (h : r' ≠ r) :
    alistLookup (VS.join_room st c r u).1.rooms r' =
      alistLookup st.rooms r' := by
  cases hl : alistLookup st.rooms r with
  | none =>
      simp [VS.join_room, hl, alistLookup_insert_ne, h,
        alistLookup_append_ne st.rooms ([] : List String) h]
  | some l =>
      simp [VS.join_room, hl, alistLookup_insert_ne, h]

theorem VS.join_room_rooms_nodupkeys (st : VS.Manager) (c r u : String)
    (hnkr : NodupKeys st.rooms) :
    NodupKeys (VS.join_room st c r u).1.rooms := by
  cases hl : alistLookup st.rooms r with
  | none =>
      have h1 : NodupKeys (st.rooms ++ [(r, [])]) :=
        NodupKeys_append_single st.rooms r [] hnkr hl
      simp only [VS.join_room, hl, Option.isSome_none, Bool.false_eq_true,
        if_false]
      exact NodupKeys_insert _ _ _ h1
  | some l =>
      simp only [VS.join_room, hl, Option.isSome_some, if_true]
      exact NodupKeys_insert _ _ _ hnkr

/-- A safe join (joining client has no stored profile, room id truthy)
preserves room consistency and the structural facts. -/
theorem VS.join_preserves_inv (st : VS.Manager) (c r u : String)
    (hcons : VS.RoomConsistent st) (hwf : VS.WF st)
    (hprof : alistLookup st.user_info c = none) (hr : r ≠ "") :
    VS.RoomConsistent (VS.join_room st c r u).1 ∧
      VS.WF (VS.join_room st c r u).1 := by
  obtain ⟨hnkr, hnku, hmnd, hne⟩ := hwf
  have hroomc : VS.roomOf st c = none := by
    show (alistLookup st.user_info c).map (·.room_id) = none
    rw [hprof]
    rfl
  have hcnot : ∀ r'', c ∉ VS.membersOf st r'' := by
    intro r'' hmem
    have h2 := (hcons c r'').mp hmem
    rw [hroomc] at h2
    exact Option.noConfusion h2
  have hmem_self : VS.membersOf (VS.join_room st c r u).1 r =
      VS.membersOf st r ++ [c] := by
    show (alistLookup (VS.join_room st c r u).1.rooms r).getD [] = _
    rw [VS.join_room_rooms_lookup_self]
    rfl
  have hmem_ne : ∀ r', r' ≠ r →
      VS.membersOf (VS.join_room st c r u).1 r' = VS.membersOf st r' := by
    intro r' hr'
    show (alistLookup (VS.join_room st c r u).1.rooms r').getD [] =
      (alistLookup st.rooms r').getD []
    rw [VS.join_room_rooms_lookup_ne st c r u r' hr']
  have hroom_self : VS.roomOf (VS.join_room st c r u).1 c = some r := by
    show (alistLookup (VS.join_room st c r u).1.user_info c).map
      (·.room_id) = some r
    rw [VS.join_room_user_info, alistLookup_insert_self]
    rfl
  have hroom_ne : ∀ c', c' ≠ c →
      VS.roomOf (VS.join_room st c r u).1 c' = VS.roomOf st c' := by
    intro c' hc'
    show (alistLookup (VS.join_room st c r u).1.user_info c').map
      (·.room_id) = (alistLookup st.user_info c').map (·.room_id)
    rw [VS.join_room_user_info, alistLookup_insert_ne _ _ hc']
  constructor
  · intro c' r''
    by_cases hc' : c' = c
    · subst hc'
      by_cases hr'' : r'' = r
      · subst hr''
        rw [hmem_self, hroom_self]
        simp
      · rw [hmem_ne r'' hr'', hroom_self]
        constructor
        · intro hmem
          exact absurd hmem (hcnot r'')
        · intro hrr
          injection hrr with hrr
          exact absurd hrr.symm hr''
    · by_cases hr'' : r'' = r
      · subst hr''
        rw [hmem_self, hroom_ne c' hc', List.mem_append]
        constructor
        · intro hmem
          rcases hmem with hmem | hmem
          · exact (hcons c' r'').mp hmem
          · simp only [List.mem_singleton] at hmem
            exact absurd hmem hc'
        · intro hro
          exact Or.inl ((hcons c' r'').mpr hro)
      · rw [hmem_ne r'' hr'', hroom_ne c' hc']
        exact hcons c' r''
  · refine ⟨VS.join_room_rooms_nodupkeys st c r u hnkr, ?_, ?_, ?_⟩
    · show NodupKeys (VS.join_room st c r u).1.user_info
      rw [VS.join_room_user_info]
      exact NodupKeys_insert _ _ _ hnku
    · intro r''
      by_cases hr'' : r'' = r
      · subst hr''
        rw [hmem_self]
        refine List.Nodup.append (hmnd r'') (by simp) ?_
        intro a ha hb
        simp only [List.mem_singleton] at hb
        rw [hb] at ha
        exact hcnot r'' ha
      · rw [hmem_ne r'' hr'']
        exact hmnd r''
    · intro c' r'' hro
      by_cases hc' : c' = c
      · subst hc'
        rw [hroom_self] at hro
        injection hro with hro
        rw [← hro]
        exact hr
      · rw [hroom_ne c' hc'] at hro
        exact hne c' r'' hro

/-- Disconnect preserves room consistency and the structural facts, for
any client. -/
theorem VS.disconnect_preserves_inv (st : VS.Manager) (c : String)
    (hcons : VS.RoomConsistent st) (hwf : VS.WF st) :
    VS.RoomConsistent (VS.disconnect st c) ∧ VS.WF (VS.disconnect st c) := by
  obtain ⟨hnkr, hnku, hmnd, hne⟩ := hwf
  have hroomc' : VS.roomOf (VS.disconnect st c) c = none := by
    show (alistLookup (alistErase st.user_info c) c).map (·.room_id) = none
    rw [alistLookup_erase_self _ _ hnku]
    rfl
  have hroom_ne : ∀ c', c' ≠ c →
      VS.roomOf (VS.disconnect st c) c' = VS.roomOf st c' := by
    intro c' hc'
    show (alistLookup (alistErase st.user_info c) c').map (·.room_id) =
      (alistLookup st.user_info c').map (·.room_id)
    rw [alistLookup_erase_ne _ hc']
  have hnku' : NodupKeys (VS.disconnect st c).user_info :=
    NodupKeys_erase _ _ hnku
  cases hprof : alistLookup st.user_info c with
  | none =>
      have hrooms' : (VS.disconnect st c).rooms = st.rooms :=
        VS.disconnectRooms_no_profile st c hprof
      have hmem' : ∀ r,
          VS.membersOf (VS.disconnect st c) r = VS.membersOf st r := by
        intro r
        show (alistLookup (VS.disconnect st c).rooms r).getD [] =
          (alistLookup st.rooms r).getD []
        rw [hrooms']
      have hroomc : VS.roomOf st c = none := by
        show (alistLookup st.user_info c).map (·.room_id) = none
        rw [hprof]
        rfl
      constructor
      · intro c' r
        by_cases hc' : c' = c
        · subst hc'
          rw [hmem' r, hroomc']
          constructor
          · intro hmem
            have h2 := (hcons c' r).mp hmem
            rw [hroomc] at h2
            exact h2
          · intro h2
            exact absurd h2 (by simp)
        · rw [hmem' r, hroom_ne c' hc']
          exact hcons c' r
      · refine ⟨?_, hnku', ?_, ?_⟩
        · show NodupKeys (VS.disconnect st c).rooms
          rw [hrooms']
          exact hnkr
        · intro r
          rw [hmem' r]
          exact hmnd r
        · intro c' r h2
          by_cases hc' : c' = c
          · subst hc'
            rw [hroomc'] at h2
            exact absurd h2 (by simp)
          · rw [hroom_ne c' hc'] at h2
            exact hne c' r h2
  | some info =>
      have hroomc : VS.roomOf st c = some info.room_id := by
        show (alistLookup st.user_info c).map (·.room_id) = _
        rw [hprof]
        rfl
      have hrc : info.room_id ≠ "" := hne c info.room_id hroomc
      have hcm : c ∈ VS.membersOf st info.room_id :=
        (hcons c info.room_id).mpr hroomc
      obtain ⟨lc, hlc, hclc⟩ :=
        VS.exists_lookup_of_mem_membersOf st info.room_id c hcm
      have hmlc : VS.membersOf st info.room_id = lc := by
        show (alistLookup st.rooms info.room_id).getD [] = lc
        rw [hlc]
        rfl
      have hlcnd : lc.Nodup := by
        rw [← hmlc]
        exact hmnd info.room_id
      have hcne : c ∉ lc.erase c := by
        intro hmem
        exact absurd ((List.Nodup.mem_erase_iff hlcnd).mp hmem).1 (by simp)
      by_cases hemp : lc.erase c = []
      · have hrooms' : (VS.disconnect st c).rooms =
            alistErase st.rooms info.room_id := by
          show VS.disconnectRooms st c = _
          unfold VS.disconnectRooms
          rw [hprof]
          simp [hrc, hlc, hclc, hemp]
        have hlceq : lc = [c] := by
          have h2 := hemp
          simp at h2
          rcases h2 with h2 | h2
          · rw [h2] at hclc
            exact absurd hclc (List.not_mem_nil c)
          · exact h2
        have hmem_rc : VS.membersOf (VS.disconnect st c) info.room_id = [] := by
          show (alistLookup (VS.disconnect st c).rooms info.room_id).getD [] = []
          rw [hrooms', alistLookup_erase_self _ _ hnkr]
          rfl
        have hmem_ne : ∀ r, r ≠ info.room_id →
            VS.membersOf (VS.disconnect st c) r = VS.membersOf st r := by
          intro r hrne
          show (alistLookup (VS.disconnect st c).rooms r).getD [] =
            (alistLookup st.rooms r).getD []
          rw [hrooms', alistLookup_erase_ne _ hrne]
        constructor
        · intro c' r
          by_cases hrr : r = info.room_id
          · subst hrr
            rw [hmem_rc]
            by_cases hc' : c' = c
            · subst hc'
              rw [hroomc']
              simp
            · rw [hroom_ne c' hc']
              constructor
              · intro hmem
                exact absurd hmem (List.not_mem_nil c')
              · intro h2
                have hmem := (hcons c' info.room_id).mpr h2
                rw [hmlc, hlceq] at hmem
                simp only [List.mem_singleton] at hmem
                exact absurd hmem hc'
          · rw [hmem_ne r hrr]
            by_cases hc' : c' = c
            · subst hc'
              rw [hroomc']
              constructor
              · intro hmem
                have h2 := (hcons c' r).mp hmem
                rw [hroomc] at h2
                injection h2 with h2
                exact absurd h2.symm hrr
              · intro h2
                exact absurd h2 (by simp)
            · rw [hroom_ne c' hc']
              exact hcons c' r
        · refine ⟨?_, hnku', ?_, ?_⟩
          · show NodupKeys (VS.disconnect st c).rooms
            rw [hrooms']
            exact NodupKeys_erase _ _ hnkr
          · intro r
            by_cases hrr : r = info.room_id
            · subst hrr
              rw [hmem_rc]
              exact List.nodup_nil
            · rw [hmem_ne r hrr]
              exact hmnd r
          · intro c' r h2
            by_cases hc' : c' = c
            · subst hc'
              rw [hroomc'] at h2
              exact absurd h2 (by simp)
            · rw [hroom_ne c' hc'] at h2
              exact hne c' r h2
      · have hrooms' : (VS.disconnect st c).rooms =
            alistInsert st.rooms info.room_id (lc.erase c) := by
          show VS.disconnectRooms st c = _
          unfold VS.disconnectRooms
          rw [hprof]
          simp [hrc, hlc, hclc, hemp]
        have hmem_rc : VS.membersOf (VS.disconnect st c) info.room_id =
            lc.erase c := by
          show (alistLookup (VS.disconnect st c).rooms info.room_id).getD [] = _
          rw [hrooms', alistLookup_insert_self]
          rfl
        have hmem_ne : ∀ r, r ≠ info.room_id →
            VS.membersOf (VS.disconnect st c) r = VS.membersOf st r := by
          intro r hrne
          show (alistLookup (VS.disconnect st c).rooms r).getD [] =
            (alistLookup st.rooms r).getD []
          rw [hrooms', alistLookup_insert_ne _ _ hrne]
        constructor
        · intro c' r
          by_cases hrr : r = info.room_id
          · subst hrr
            rw [hmem_rc]
            by_cases hc' : c' = c
            · subst hc'
              rw [hroomc']
              constructor
              · intro hmem
                exact absurd hmem hcne
              · intro h2
                exact absurd h2 (by simp)
            · rw [hroom_ne c' hc', List.mem_erase_of_ne hc', ← hmlc]
              exact hcons c' info.room_id
          · rw [hmem_ne r hrr]
            by_cases hc' : c' = c
            · subst hc'
              rw [hroomc']
              constructor
              · intro hmem
                have h2 := (hcons c' r).mp hmem
                rw [hroomc] at h2
                injection h2 with h2
                exact absurd h2.symm hrr
              · intro h2
                exact absurd h2 (by simp)
            · rw [hroom_ne c' hc']
              exact hcons c' r
        · refine ⟨?_, hnku', ?_, ?_⟩
          · show NodupKeys (VS.disconnect st c).rooms
            rw [hrooms']
            exact NodupKeys_insert _ _ _ hnkr
          · intro r
            by_cases hrr : r = info.room_id
            · subst hrr
              rw [hmem_rc]
              exact List.Nodup.erase c hlcnd
            · rw [hmem_ne r hrr]
              exact hmnd r
          · intro c' r h2
            by_cases hc' : c' = c
            · subst hc'
              rw [hroomc'] at h2
              exact absurd h2 (by simp)
            · rw [hroom_ne c' hc'] at h2
              exact hne c' r h2

/-! ### Claim theorems -/

/-- C4: a room broadcast delivers the message to every current member of
the room except the excluded connection id (among the live members whose
channel send succeeds), in member-list order; because each recipient is
handled by its own guarded send, one recipient's failure does not prevent
delivery to the remaining recipients; and broadcasting to a room id absent
from the registry is a no-op. -/
theorem broadcast_room_delivery (sendOk : String → Bool) (st : VS.Manager)
    (m : VS.Msg) (room_id : String) (exclude_client : Option String) :
    VS.broadcast_to_room sendOk st m room_id exclude_client =
      ((VS.membersOf st room_id).filter fun x =>
        some x ≠ exclude_client ∧ x ∈ st.active_connections ∧ sendOk x).map
        (fun x => (x, m)) ∧
    (alistLookup st.rooms room_id = none →
      VS.broadcast_to_room sendOk st m room_id exclude_client = []) := by
  refine ⟨VS.broadcast_to_room_eq sendOk st m room_id exclude_client, ?_⟩
  intro h
  unfold VS.broadcast_to_room
  rw [h]

/-- Witness for C4: in a four-member room with `b`'s channel failing and
`d` excluded, the broadcast still reaches `a` and `c`, in order; and a
broadcast to an unknown room delivers nothing. -/
theorem broadcast_room_delivery_witness :
    VS.broadcast_to_room (fun c => !(c == "b"))
        ⟨["a", "b", "c", "d"], [("r", ["a", "b", "c", "d"])], []⟩
        VS.Msg.pong "r" (some "d") =
      [("a", VS.Msg.pong), ("c", VS.Msg.pong)] ∧
    VS.broadcast_to_room (fun _ => true) ⟨["a"], [("r", ["a"])], []⟩
        VS.Msg.pong "ghost" none = [] := by
  constructor
  · rw [(broadcast_room_delivery (fun c => !(c == "b"))
      ⟨["a", "b", "c", "d"], [("r", ["a", "b", "c", "d"])], []⟩
      VS.Msg.pong "r" (some "d")).1]
    decide
  · exact (broadcast_room_delivery (fun _ => true)
      ⟨["a"], [("r", ["a"])], []⟩ VS.Msg.pong "ghost" none).2 (by decide)

/-- C5: a unicast via `send_to_client` whose target is not a live
connection, or whose channel send fails (the raised exception is caught),
returns `false`, delivers nothing to anyone, and leaves the registry —
including every other connection — exactly as it was; in particular the
target is not disconnected. -/
theorem send_to_client_failure_is_inert (sendOk : String → Bool)
    (st : VS.Manager) (m : VS.Msg) (target : String)
    (h : target ∉ st.active_connections ∨ sendOk target = false) :
    VS.send_to_client sendOk st m target = (st, false, []) := by
  unfold VS.send_to_client
  rcases h with h | h
  · simp [h]
  · by_cases h1 : target ∈ st.active_connections <;> simp [h1, h]

/-- Witness for C5: unicast to the unknown id `"ghost"`, and unicast to a
live connection whose send fails, both return `false` and change
nothing. -/
theorem send_to_client_failure_is_inert_witness :
    VS.send_to_client (fun _ => true) ⟨["c1"], [("r1", ["c1"])], []⟩
        VS.Msg.pong "ghost" = (⟨["c1"], [("r1", ["c1"])], []⟩, false, []) ∧
    VS.send_to_client (fun _ => false) ⟨["c1"], [], []⟩ VS.Msg.pong "c1" =
      (⟨["c1"], [], []⟩, false, []) :=
  ⟨send_to_client_failure_is_inert (fun _ => true)
      ⟨["c1"], [("r1", ["c1"])], []⟩ VS.Msg.pong "ghost" (Or.inl (by decide)),
   send_to_client_failure_is_inert (fun _ => false)
      ⟨["c1"], [], []⟩ VS.Msg.pong "c1" (Or.inr rfl)⟩

/-- C9: for any registry whose connection list and profile table have the
(dict-guaranteed) unique keys, running the disconnect/cleanup path a second
time for the same id yields exactly the state after the first run and sends
no message at all — so no error, no state change, and no duplicate
`user_left` notification can arise from a double disconnect. -/
theorem disconnect_cleanup_idempotent (sendOk : String → Bool)
    (st : VS.Manager) (c : String) (ha : st.active_connections.Nodup)
    (hu : NodupKeys st.user_info) :
    VS.handle_client_disconnect sendOk
        (VS.handle_client_disconnect sendOk st c).1 c =
      ((VS.handle_client_disconnect sendOk st c).1, []) := by
  rw [VS.handle_client_disconnect_state]
  have hlook : alistLookup (VS.disconnect st c).user_info c = none := by
    rw [VS.disconnect_user_info]
    exact alistLookup_erase_self _ _ hu
  rw [VS.handle_client_disconnect_no_profile sendOk _ c hlook]
  congr 1
  have h1 : (VS.disconnect st c).active_connections.erase c =
      (VS.disconnect st c).active_connections := by
    rw [VS.disconnect_active]
    refine List.erase_of_not_mem fun hmem => ?_
    exact ((List.Nodup.mem_erase_iff ha).mp hmem).1 rfl
  have h2 : alistErase (VS.disconnect st c).user_info c =
      (VS.disconnect st c).user_info :=
    alistErase_of_lookup_none _ _ hlook
  have h3 : VS.disconnectRooms (VS.disconnect st c) c =
      (VS.disconnect st c).rooms :=
    VS.disconnectRooms_no_profile _ _ hlook
  have hdd : VS.disconnect (VS.disconnect st c) c =
      { active_connections := (VS.disconnect st c).active_connections.erase c,
        rooms := VS.disconnectRooms (VS.disconnect st c) c,
        user_info := alistErase (VS.disconnect st c).user_info c } := rfl
  rw [hdd, h1, h2, h3]

/-- Witness for C9: double disconnect of `"c1"` from a concrete two-member
room equals a single disconnect and emits nothing on the second run. -/
theorem disconnect_cleanup_idempotent_witness :
    VS.handle_client_disconnect (fun _ => true)
        (VS.handle_client_disconnect (fun _ => true)
          ⟨["c1", "c2"], [("r1", ["c1", "c2"])],
           [("c1", ⟨"Ann", "r1"⟩), ("c2", ⟨"Bob", "r1"⟩)]⟩ "c1").1 "c1" =
      ((VS.handle_client_disconnect (fun _ => true)
          ⟨["c1", "c2"], [("r1", ["c1", "c2"])],
           [("c1", ⟨"Ann", "r1"⟩), ("c2", ⟨"Bob", "r1"⟩)]⟩ "c1").1, []) :=
  disconnect_cleanup_idempotent (fun _ => true)
    ⟨["c1", "c2"], [("r1", ["c1", "c2"])],
     [("c1", ⟨"Ann", "r1"⟩), ("c2", ⟨"Bob", "r1"⟩)]⟩ "c1"
    (by decide) (by decide)

/-- C7 counterexample: a `join` with no `room` field is not dropped — from
a fresh registry holding only the live connection `"c1"`, dispatching
`join` with `room` and `username` both absent mutates the registry (a room
named `"default"` is created with `"c1"` as member, and a profile is
stored) and sends a `joined` message back to the sender. -/
theorem join_missing_room_not_dropped :
    VS.handle_websocket_message (fun _ => true) ⟨["c1"], [], []⟩ "c1"
        (VS.InMsg.join none none) =
      (⟨["c1"], [("default", ["c1"])], [("c1", ⟨"Anonymous", "default"⟩)]⟩,
       [("c1", VS.Msg.joined "default" "c1" "Anonymous" [])]) ∧
    (⟨["c1"], [("default", ["c1"])],
        [("c1", ⟨"Anonymous", "default"⟩)]⟩ : VS.Manager) ≠
      ⟨["c1"], [], []⟩ := by
  decide

/-- C7 (amended): for every recognized message type except `join`
(`offer`, `answer`, `ice_candidate`, `chat`), an inbound message missing a
required field (or carrying a falsy one) is dropped silently: the registry
is unchanged and nothing is sent to any connection (the dispatch loop keeps
running, so the sender stays open).  A `join` missing `room` is instead
processed as a join of the room named `"default"`. -/
theorem missing_fields_dropped (sendOk : String → Bool) (st : VS.Manager)
    (c : String) (m : VS.InMsg) (h : VS.missingRequiredField m = true) :
    VS.handle_websocket_message sendOk st c m = (st, []) ∧
    (∀ username, VS.handle_websocket_message sendOk st c
        (VS.InMsg.join none username) =
      VS.handle_websocket_message sendOk st c
        (VS.InMsg.join (some "default") username)) := by
  refine ⟨?_, fun _ => rfl⟩
  cases m with
  | join room username => simp [VS.missingRequiredField] at h
  | offer t p =>
      simp only [VS.missingRequiredField, Bool.or_eq_true,
        Bool.not_eq_true'] at h
      have hnc : ¬(truthy t = true ∧ truthy p = true) := by
        rcases h with h | h <;> simp [h]
      simp [VS.handle_websocket_message, VS.handle_offer, hnc]
  | answer t p =>
      simp only [VS.missingRequiredField, Bool.or_eq_true,
        Bool.not_eq_true'] at h
      have hnc : ¬(truthy t = true ∧ truthy p = true) := by
        rcases h with h | h <;> simp [h]
      simp [VS.handle_websocket_message, VS.handle_answer, hnc]
  | ice_candidate t p =>
      simp only [VS.missingRequiredField, Bool.or_eq_true,
        Bool.not_eq_true'] at h
      have hnc : ¬(truthy t = true ∧ truthy p = true) := by
        rcases h with h | h <;> simp [h]
      simp [VS.handle_websocket_message, VS.handle_ice_candidate, hnc]
  | chat r msg =>
      simp only [VS.missingRequiredField, Bool.or_eq_true,
        Bool.not_eq_true'] at h
      have hnc : ¬(truthy r = true ∧ truthy msg = true) := by
        rcases h with h | h <;> simp [h]
      simp [VS.handle_websocket_message, VS.handle_chat, hnc]
  | ping => simp [VS.missingRequiredField] at h
  | other => simp [VS.missingRequiredField] at h

/-- Witness for C7 (amended): an `offer` with no `offer` payload from a
concrete two-connection registry is dropped with no state change and no
outbound message. -/
theorem missing_fields_dropped_witness :
    VS.handle_websocket_message (fun _ => true)
        ⟨["c1", "c2"], [("r1", ["c1", "c2"])], []⟩ "c1"
        (VS.InMsg.offer (some "c2") none) =
      (⟨["c1", "c2"], [("r1", ["c1", "c2"])], []⟩, []) :=
  (missing_fields_dropped (fun _ => true)
    ⟨["c1", "c2"], [("r1", ["c1", "c2"])], []⟩ "c1"
    (VS.InMsg.offer (some "c2") none) (by decide)).1

/-- C1 counterexample: the claim fails as stated.  The registry state
reached from the empty registry by connect("c1"), join("r1"), join("r2")
(all legal: the second join is dispatched from a live connection) is
`Reachable`, yet "c1" is still listed in room "r1" while its stored room
field is "r2" — the membership iff fails for "r1", and "c1" sits in two
rooms' member lists at once. -/
theorem room_consistency_violated_by_second_join :
    VS.Reachable
      (VS.handle_websocket_message (fun _ => true)
        (VS.handle_websocket_message (fun _ => true)
          (VS.connect VS.Manager.empty "c1") "c1"
          (VS.InMsg.join (some "r1") none)).1 "c1"
        (VS.InMsg.join (some "r2") none)).1 ∧
    "c1" ∈ VS.membersOf
      (VS.handle_websocket_message (fun _ => true)
        (VS.handle_websocket_message (fun _ => true)
          (VS.connect VS.Manager.empty "c1") "c1"
          (VS.InMsg.join (some "r1") none)).1 "c1"
        (VS.InMsg.join (some "r2") none)).1 "r1" ∧
    "c1" ∈ VS.membersOf
      (VS.handle_websocket_message (fun _ => true)
        (VS.handle_websocket_message (fun _ => true)
          (VS.connect VS.Manager.empty "c1") "c1"
          (VS.InMsg.join (some "r1") none)).1 "c1"
        (VS.InMsg.join (some "r2") none)).1 "r2" ∧
    ¬("c1" ∈ VS.membersOf
      (VS.handle_websocket_message (fun _ => true)
        (VS.handle_websocket_message (fun _ => true)
          (VS.connect VS.Manager.empty "c1") "c1"
          (VS.InMsg.join (some "r1") none)).1 "c1"
        (VS.InMsg.join (some "r2") none)).1 "r1" ↔
      VS.roomOf
        (VS.handle_websocket_message (fun _ => true)
          (VS.handle_websocket_message (fun _ => true)
            (VS.connect VS.Manager.empty "c1") "c1"
            (VS.InMsg.join (some "r1") none)).1 "c1"
          (VS.InMsg.join (some "r2") none)).1 "c1" = some "r1") := by
  refine ⟨?_, by decide, by decide, by decide⟩
  exact VS.Reachable.step
    (VS.Reachable.step
      (VS.Reachable.step VS.Reachable.empty
        (VS.Step.connect VS.Manager.empty "c1"))
      (VS.Step.message (VS.connect VS.Manager.empty "c1") "c1"
        (VS.InMsg.join (some "r1") none) (by decide)))
    (VS.Step.message _ "c1" (VS.InMsg.join (some "r2") none) (by decide))

/-- C1 (amended): the room-consistency invariant holds for every registry
state reachable from the empty registry when every dispatched `join` is
safe — the joining connection holds no stored profile at that moment (it is
not already in a room) and the effective room id is a nonempty string.  In
every such state a connection id is in room R's member list iff its stored
room field is R, and hence appears in at most one room's member list.
(Without the restriction the invariant is false: see the counterexample
for a second `join` from a member, and note that a join into the room
named by the empty string can later evade `disconnect`'s truthiness
guard.) -/
theorem room_consistency_invariant (st : VS.Manager)
    (h : VS.SafeReachable st) :
    (∀ c r, c ∈ VS.membersOf st r ↔ VS.roomOf st c = some r) ∧
    (∀ c r1 r2, c ∈ VS.membersOf st r1 → c ∈ VS.membersOf st r2 →
      r1 = r2) := by
  have hInv : VS.RoomConsistent st ∧ VS.WF st := by
    induction h with
    | empty =>
        constructor
        · intro c r
          simp [VS.membersOf, VS.roomOf, VS.Manager.empty, alistLookup]
        · refine ⟨?_, ?_, ?_, ?_⟩ <;>
            simp [NodupKeys, VS.membersOf, VS.roomOf, VS.Manager.empty,
              alistLookup]
    | step hreach hstep ih =>
        cases hstep with
        | connect c1 => exact ih
        | message c1 m hc hj =>
            cases m with
            | join room username =>
                exact VS.join_preserves_inv _ c1 _ _ ih.1 ih.2
                  (hj room username rfl).1 (hj room username rfl).2
            | offer t p => exact ih
            | answer t p => exact ih
            | ice_candidate t p => exact ih
            | chat a b => exact ih
            | ping => exact ih
            | other => exact ih
        | disconnect c1 =>
            exact VS.disconnect_preserves_inv _ c1 ih.1 ih.2
  refine ⟨hInv.1, fun c r1 r2 h1 h2 => ?_⟩
  have e1 := (hInv.1 c r1).mp h1
  have e2 := (hInv.1 c r2).mp h2
  rw [e1] at e2
  exact Option.some.inj e2

/-- Witness for C1 (amended): the safely reachable state after
connect("c1") and a first join of "r1" satisfies the instantiated
invariant. -/
theorem room_consistency_invariant_witness :
    "c1" ∈ VS.membersOf
      (VS.handle_websocket_message (fun _ => true)
        (VS.connect VS.Manager.empty "c1") "c1"
        (VS.InMsg.join (some "r1") none)).1 "r1" ↔
    VS.roomOf
      (VS.handle_websocket_message (fun _ => true)
        (VS.connect VS.Manager.empty "c1") "c1"
        (VS.InMsg.join (some "r1") none)).1 "c1" = some "r1" :=
  (room_consistency_invariant _
    (VS.SafeReachable.step
      (VS.SafeReachable.step VS.SafeReachable.empty
        (VS.SafeStep.connect VS.Manager.empty "c1"))
      (VS.SafeStep.message (VS.connect VS.Manager.empty "c1") "c1"
        (VS.InMsg.join (some "r1") none) (by decide)
        (by
          intro room username heq
          cases heq
          exact ⟨by decide, by decide⟩)))).1 "c1" "r1"

/-- C2: when A and then B join a previously absent room `r`, B's `joined`
confirmation lists exactly A (and not B itself) as the existing
participants; A receives exactly one `user_joined` for B, tagged
`should_initiate = true`; and B receives exactly one `user_joined` for A,
tagged `should_initiate = false` — the two delivered event lists are
computed exactly. -/
theorem join_snapshot_exactness (sendOk : String → Bool) (st0 : VS.Manager)
    (r A B uA uB : String) (hroom : alistLookup st0.rooms r = none)
    (hA : A ∈ st0.active_connections) (hB : B ∈ st0.active_connections)
    (hAB : A ≠ B) (hokA : sendOk A = true) (hokB : sendOk B = true) :
    (VS.handle_join sendOk st0 A (some r) (some uA)).2 =
      [(A, VS.Msg.joined r A uA [])] ∧
    (VS.handle_join sendOk (VS.handle_join sendOk st0 A (some r) (some uA)).1
        B (some r) (some uB)).2 =
      [(B, VS.Msg.joined r B uB [⟨A, uA, r⟩]),
       (A, VS.Msg.user_joined B uB true),
       (B, VS.Msg.user_joined A uA false)] := by
  have hmem0 : VS.membersOf st0 r = [] := by
    unfold VS.membersOf
    rw [hroom]
    rfl
  have hothers1 : (VS.join_room st0 A r uA).2 = [] := by
    rw [VS.join_room_others, hmem0]
    simp
  have hact1 : (VS.join_room st0 A r uA).1.active_connections =
      st0.active_connections := by
    rw [VS.join_room_state]
  have hev1 : (VS.handle_join sendOk st0 A (some r) (some uA)).2 =
      [(A, VS.Msg.joined r A uA [])] := by
    rw [VS.handle_join_events]
    simp only [Option.getD_some]
    rw [hothers1]
    simp [VS.send_to_client_events, hact1, hA, hokA]
  refine ⟨hev1, ?_⟩
  have hst1 : (VS.handle_join sendOk st0 A (some r) (some uA)).1 =
      { st0 with
        rooms := alistInsert (st0.rooms ++ [(r, [])]) r ([] ++ [A]),
        user_info := alistInsert st0.user_info A ⟨uA, r⟩ } := by
    rw [VS.handle_join_state, VS.join_room_state]
    simp [hroom, hmem0]
  set st1 := (VS.handle_join sendOk st0 A (some r) (some uA)).1 with hst1def
  have hlook1 : alistLookup st1.rooms r = some [A] := by
    rw [hst1]
    exact alistLookup_insert_self _ r ([] ++ [A])
  have hmem1 : VS.membersOf st1 r = [A] := by
    unfold VS.membersOf
    rw [hlook1]
    rfl
  have hui1 : alistLookup st1.user_info A = some ⟨uA, r⟩ := by
    rw [hst1]
    exact alistLookup_insert_self _ A (⟨uA, r⟩ : VS.UserInfo)
  have hact1' : st1.active_connections = st0.active_connections := by
    rw [hst1]
  have hothers2 : (VS.join_room st1 B r uB).2 = [⟨A, uA, r⟩] := by
    rw [VS.join_room_others, hmem1]
    have hfil : ([A] ++ [B]).filter (· ≠ B) = [A] := by simp [hAB]
    rw [hfil]
    simp [alistLookup_insert_ne st1.user_info (⟨uB, r⟩ : VS.UserInfo) hAB,
      hui1]
  have hact2 : (VS.join_room st1 B r uB).1.active_connections =
      st0.active_connections := by
    rw [VS.join_room_state]
    exact hact1'
  rw [VS.handle_join_events]
  simp only [Option.getD_some]
  rw [hothers2]
  simp [VS.send_to_client_events, hact2, hA, hB, hokA, hokB]

/-- Witness for C2: the spec's end-to-end scenario — `"c1"` (Ann) then
`"c2"` (Bob) join `"lobby"` from a two-connection registry with no rooms;
the two delivered event lists are exactly as claimed. -/
theorem join_snapshot_exactness_witness :
    (VS.handle_join (fun _ => true) ⟨["c1", "c2"], [], []⟩ "c1"
        (some "lobby") (some "Ann")).2 =
      [("c1", VS.Msg.joined "lobby" "c1" "Ann" [])] ∧
    (VS.handle_join (fun _ => true)
        (VS.handle_join (fun _ => true) ⟨["c1", "c2"], [], []⟩ "c1"
          (some "lobby") (some "Ann")).1 "c2" (some "lobby")
        (some "Bob")).2 =
      [("c2", VS.Msg.joined "lobby" "c2" "Bob" [⟨"c1", "Ann", "lobby"⟩]),
       ("c1", VS.Msg.user_joined "c2" "Bob" true),
       ("c2", VS.Msg.user_joined "c1" "Ann" false)] :=
  join_snapshot_exactness (fun _ => true) ⟨["c1", "c2"], [], []⟩ "lobby"
    "c1" "c2" "Ann" "Bob" (by decide) (by decide) (by decide) (by decide)
    rfl rfl

/-- C6: when connection A, whose profile stores room `r`, is in `r`'s
member list together with another live member B (listed once) and A's
channel closes, the disconnect path leaves room `r` in the registry holding
exactly the remaining members (a non-empty list), and B receives exactly
one `user_left` message carrying A's client id. -/
theorem disconnect_notifies_remaining_member (sendOk : String → Bool)
    (st : VS.Manager) (r A B uA : String) (l : List String)
    (hroom : alistLookup st.rooms r = some l) (hr : r ≠ "")
    (hui : alistLookup st.user_info A = some ⟨uA, r⟩) (hAmem : A ∈ l)
    (hBA : B ≠ A) (hBcount : (l.erase A).count B = 1)
    (hBlive : B ∈ st.active_connections) (hokB : sendOk B = true) :
    alistLookup (VS.handle_client_disconnect sendOk st A).1.rooms r =
      some (l.erase A) ∧
    l.erase A ≠ [] ∧
    ((VS.handle_client_disconnect sendOk st A).2.filter
        fun e => e.1 = B) = [(B, VS.Msg.user_left A uA)] := by
  have hBin : B ∈ l.erase A := by
    by_contra hnot
    rw [List.count_eq_zero_of_not_mem hnot] at hBcount
    exact absurd hBcount (by simp)
  have hsurv : l.erase A ≠ [] := by
    intro hnil
    rw [hnil] at hBin
    exact absurd hBin (List.not_mem_nil B)
  have hrooms : VS.disconnectRooms st A = alistInsert st.rooms r (l.erase A) := by
    unfold VS.disconnectRooms
    rw [hui]
    simp [hr, hroom, hAmem, hsurv]
  have hm : alistLookup (VS.disconnect st A).rooms r = some (l.erase A) := by
    show alistLookup (VS.disconnectRooms st A) r = some (l.erase A)
    rw [hrooms]
    exact alistLookup_insert_self st.rooms r (l.erase A)
  have hBlive' : B ∈ (VS.disconnect st A).active_connections := by
    rw [VS.disconnect_active]
    exact (List.mem_erase_of_ne hBA).mpr hBlive
  refine ⟨hm, hsurv, ?_⟩
  have hev : (VS.handle_client_disconnect sendOk st A).2 =
      ((l.erase A).filter fun uid =>
        uid ≠ A ∧ uid ∈ (VS.disconnect st A).active_connections ∧
          sendOk uid).map fun uid => (uid, VS.Msg.user_left A uA) := by
    rw [VS.handle_client_disconnect_events_in_room sendOk st A uA r hui hr
      (l.erase A) hm]
    rw [← flatMap_if_singleton]
    apply List.flatMap_congr
    intro x _
    rw [VS.send_to_client_events]
    by_cases h1 : x ≠ A <;>
      by_cases h2 : x ∈ (VS.disconnect st A).active_connections <;>
      by_cases h3 : sendOk x <;>
      simp [h1, h2, h3]
  rw [hev, filter_fst_map_pair]
  rw [List.count_filter (by simp [hBA, hBlive', hokB])]
  rw [hBcount]
  rfl

/-- Witness for C6: `"c1"` (Ann) disconnects from the two-member room
`"r1"`; the room keeps exactly `"c2"`, and `"c2"` receives exactly one
`user_left` for `"c1"`. -/
theorem disconnect_notifies_remaining_member_witness :
    alistLookup (VS.handle_client_disconnect (fun _ => true)
        ⟨["c1", "c2"], [("r1", ["c1", "c2"])],
         [("c1", ⟨"Ann", "r1"⟩), ("c2", ⟨"Bob", "r1"⟩)]⟩ "c1").1.rooms "r1" =
      some (["c1", "c2"].erase "c1") ∧
    ["c1", "c2"].erase "c1" ≠ [] ∧
    ((VS.handle_client_disconnect (fun _ => true)
        ⟨["c1", "c2"], [("r1", ["c1", "c2"])],
         [("c1", ⟨"Ann", "r1"⟩), ("c2", ⟨"Bob", "r1"⟩)]⟩ "c1").2.filter
      fun e => e.1 = "c2") = [("c2", VS.Msg.user_left "c1" "Ann")] :=
  disconnect_notifies_remaining_member (fun _ => true)
    ⟨["c1", "c2"], [("r1", ["c1", "c2"])],
     [("c1", ⟨"Ann", "r1"⟩), ("c2", ⟨"Bob", "r1"⟩)]⟩ "r1" "c1" "c2" "Ann"
    ["c1", "c2"] (by decide) (by decide) (by decide) (by decide) (by decide)
    (by decide) (by decide) rfl

/-- C8 (main.py, the only variant with a `leave` branch): processing
`leave{room: r}` from a connection listed once in room `r` and in no other
room removes it from `r`'s member list (afterwards it is a member of no
room) and keeps the connection registered; provided every send attempted
by the `user_left` broadcast succeeds (main.py's `send_json` is unguarded,
so a raising send would abort the remaining recipients and escape the
handler — see `MainV.broadcast_sends`), no exception escapes (the
connection's handler loop stays alive) and `user_left{client_id}` is
delivered to exactly the remaining live members of `r`, in member-list
order. -/
theorem leave_removes_and_notifies (sendOk : String → Bool)
    (st : MainV.Manager) (c r : String) (l : List String)
    (hroom : alistLookup st.rooms r = some l) (hc : c ∈ l)
    (hcount : l.count c = 1)
    (honly : ∀ r', r' ≠ r → c ∉ MainV.membersOf st r')
    (hok : ∀ x ∈ l.erase c, x ∈ st.active_connections → sendOk x = true) :
    (MainV.handle_leave sendOk st c (some r)).1.active_connections =
      st.active_connections ∧
    alistLookup (MainV.handle_leave sendOk st c (some r)).1.rooms r =
      some (l.erase c) ∧
    (∀ r', c ∉ MainV.membersOf (MainV.handle_leave sendOk st c (some r)).1 r') ∧
    (MainV.handle_leave sendOk st c (some r)).2.1 =
      ((l.erase c).filter fun x => x ∈ st.active_connections).map
        (fun x => (x, MainV.Msg.user_left c)) ∧
    (MainV.handle_leave sendOk st c (some r)).2.2 = false := by
  have hlook' : alistLookup (alistInsert st.rooms r (l.erase c)) r =
      some (l.erase c) := alistLookup_insert_self st.rooms r (l.erase c)
  have hb := MainV.broadcast_to_room_all_ok sendOk
    { st with rooms := alistInsert st.rooms r (l.erase c) }
    (MainV.Msg.user_left c) r none (l.erase c) hlook'
    (fun x hx _ hlive => hok x hx hlive)
  have hstep : MainV.handle_leave sendOk st c (some r) =
      ({ st with rooms := alistInsert st.rooms r (l.erase c) },
        ((l.erase c).filter fun x =>
          some x ≠ (none : Option String) ∧ x ∈ st.active_connections).map
          (fun x => (x, MainV.Msg.user_left c)), false) := by
    simp [MainV.handle_leave, hroom, hc, hb]
  have hnotin : c ∉ l.erase c := by
    apply List.not_mem_of_count_eq_zero
    have := List.count_erase_self c l
    omega
  rw [hstep]
  refine ⟨rfl, alistLookup_insert_self st.rooms r (l.erase c), ?_, ?_, rfl⟩
  · intro r'
    by_cases hr' : r' = r
    · subst hr'
      unfold MainV.membersOf
      rw [alistLookup_insert_self st.rooms r' (l.erase c)]
      exact hnotin
    · unfold MainV.membersOf
      have : alistLookup (alistInsert st.rooms r (l.erase c)) r' =
          alistLookup st.rooms r' :=
        alistLookup_insert_ne st.rooms (l.erase c) hr'
      rw [this]
      exact honly r' hr'
  · refine congrArg (List.map _) (List.filter_congr ?_)
    intro x _
    simp

/-- Witness for C8: `"c1"` leaves the three-member room `"r1"` (one member
`"c3"` not live, so no send is attempted for it); the room keeps
`["c2", "c3"]`, `"c1"` is in no room, the connection list is unchanged,
nothing raises, and only `"c2"` is notified. -/
theorem leave_removes_and_notifies_witness :
    (MainV.handle_leave (fun _ => true)
        ⟨["c1", "c2"], [("r1", ["c1", "c2", "c3"])]⟩ "c1"
        (some "r1")).1.active_connections = ["c1", "c2"] ∧
    alistLookup (MainV.handle_leave (fun _ => true)
        ⟨["c1", "c2"], [("r1", ["c1", "c2", "c3"])]⟩ "c1"
        (some "r1")).1.rooms "r1" = some (["c1", "c2", "c3"].erase "c1") ∧
    (∀ r', "c1" ∉ MainV.membersOf (MainV.handle_leave (fun _ => true)
        ⟨["c1", "c2"], [("r1", ["c1", "c2", "c3"])]⟩ "c1"
        (some "r1")).1 r') ∧
    (MainV.handle_leave (fun _ => true)
        ⟨["c1", "c2"], [("r1", ["c1", "c2", "c3"])]⟩ "c1" (some "r1")).2.1 =
      ((["c1", "c2", "c3"].erase "c1").filter fun x =>
        x ∈ ["c1", "c2"]).map
        (fun x => (x, MainV.Msg.user_left "c1")) ∧
    (MainV.handle_leave (fun _ => true)
        ⟨["c1", "c2"], [("r1", ["c1", "c2", "c3"])]⟩ "c1"
        (some "r1")).2.2 = false :=
  leave_removes_and_notifies (fun _ => true)
    ⟨["c1", "c2"], [("r1", ["c1", "c2", "c3"])]⟩ "c1" "r1"
    ["c1", "c2", "c3"] (by decide) (by decide) (by decide)
    (by intro r' hr'
        unfold MainV.membersOf
        by_cases h : r' = "r1"
        · exact absurd h hr'
        · simp [alistLookup, Ne.symm h])
    (fun x hx hl => rfl)

/-- C3: the minimal variant keeps an emptied room in the registry — when
the only member of `"r1"` processes `leave{room: "r1"}` in main.py, the
room table afterwards still contains the key `"r1"`, now mapped to the
empty member list, instead of the key being absent.  (The richer variant's
disconnect path does delete emptied rooms: see
`VS.disconnect_deletes_empty_room`; main.py's own disconnect also never
deletes a room entry.) -/
theorem leave_last_member_keeps_empty_room :
    (MainV.handle_leave (fun _ => true) ⟨["c1"], [("r1", ["c1"])]⟩ "c1"
        (some "r1")).1.rooms = [("r1", [])] ∧
    alistLookup (MainV.handle_leave (fun _ => true)
        ⟨["c1"], [("r1", ["c1"])]⟩ "c1" (some "r1")).1.rooms "r1" =
      some [] := by
  decide

/-- C10: joining is not idempotent — when a connection already counted once
in room `r`'s member list dispatches a second `join` for `r`, its id is
appended again (the list now counts it twice), and any subsequent broadcast
to `r` that does not exclude it delivers the message to that connection
twice. -/
theorem second_join_duplicates_membership (sendOk : String → Bool)
    (st : VS.Manager) (c r u : String) (m : VS.Msg) (l : List String)
    (hr : alistLookup st.rooms r = some l) (hcount : l.count c = 1)
    (hactive : c ∈ st.active_connections) (hok : sendOk c = true) :
    alistLookup (VS.handle_join sendOk st c (some r) (some u)).1.rooms r =
      some (l ++ [c]) ∧
    (l ++ [c]).count c = 2 ∧
    (VS.broadcast_to_room sendOk
        (VS.handle_join sendOk st c (some r) (some u)).1 m r none).count
      (c, m) = 2 := by
  have hstate := VS.handle_join_state sendOk st c (some r) (some u)
  rw [VS.join_room_state] at hstate
  have hrooms : (VS.handle_join sendOk st c (some r) (some u)).1.rooms =
      alistInsert st.rooms r (l ++ [c]) := by
    rw [hstate]
    simp [VS.membersOf, hr]
  have hlook2 : alistLookup
      (VS.handle_join sendOk st c (some r) (some u)).1.rooms r =
      some (l ++ [c]) := by
    rw [hrooms]
    exact alistLookup_insert_self st.rooms r (l ++ [c])
  have hactive2 : (VS.handle_join sendOk st c (some r)
      (some u)).1.active_connections = st.active_connections := by
    rw [hstate]
  have hcount2 : (l ++ [c]).count c = 2 := by
    rw [List.count_append, hcount]
    simp
  refine ⟨hlook2, hcount2, ?_⟩
  rw [VS.broadcast_to_room_eq]
  have hmem : VS.membersOf (VS.handle_join sendOk st c (some r)
      (some u)).1 r = l ++ [c] := by
    unfold VS.membersOf
    rw [hlook2]
    rfl
  rw [hmem, hactive2, count_pair_map, List.count_filter (by simp [hactive, hok]),
    hcount2]

/-- Witness for C10: `"c1"` joins `"r1"` a second time from a concrete
one-room registry; its id is then listed twice and a broadcast reaches it
twice. -/
theorem second_join_duplicates_membership_witness :
    alistLookup (VS.handle_join (fun _ => true)
        ⟨["c1"], [("r1", ["c1"])], [("c1", ⟨"Ann", "r1"⟩)]⟩ "c1"
        (some "r1") (some "Ann")).1.rooms "r1" = some (["c1"] ++ ["c1"]) ∧
    (["c1"] ++ ["c1"]).count "c1" = 2 ∧
    (VS.broadcast_to_room (fun _ => true)
        (VS.handle_join (fun _ => true)
          ⟨["c1"], [("r1", ["c1"])], [("c1", ⟨"Ann", "r1"⟩)]⟩ "c1"
          (some "r1") (some "Ann")).1 VS.Msg.pong "r1" none).count
      ("c1", VS.Msg.pong) = 2 :=
  second_join_duplicates_membership (fun _ => true)
    ⟨["c1"], [("r1", ["c1"])], [("c1", ⟨"Ann", "r1"⟩)]⟩ "c1" "r1" "Ann"
    VS.Msg.pong ["c1"] (by decide) (by decide) (by decide) rfl

end VideoCAM
